import Mathlib

/-!
Formal model of a single-file falling-block (Tetris-style) game engine.

The source is one TypeScript file.  Numbers are modelled as `ℚ` (all
arithmetic performed by the engine is exact: integers and half-integers),
grids as `List (List Nat)` (cell `0` = empty, otherwise a piece identity),
and the JavaScript runtime errors that array indexing with an invalid row
index produces are modelled with `Option` (`none` = a thrown error).
-/

/-- Number of blocks of every piece (source constant `NUM_BLOCKS`). -/
def NUM_BLOCKS : Nat := 4

/-- Grid width in cells (source constant `GRID_WIDTH`). -/
def GRID_WIDTH : Nat := 10

/-- Grid height in cells (source constant `GRID_HEIGHT`). -/
def GRID_HEIGHT : Nat := 20

/-- A 2-D point; used both for integer block offsets and for (possibly
half-integer) rotation centroids, exactly as in the source class `Point`. -/
@[ext]
structure Point where
  x : ℚ
  y : ℚ
deriving DecidableEq, Repr

/-- Source `Point.rotate(ccw, center)`: 90Â° rotation of `p` about `center`.
`xFactor`/`yFactor` are taken verbatim from the source. -/
def Point.rotate (p : Point) (ccw : Bool) (center : Point) : Point :=
  let xFactor : ℚ := if ccw then -1 else 1
  let yFactor : ℚ := if ccw then 1 else -1
  ⟨center.x + xFactor * (p.y - center.y),
   center.y + yFactor * (p.x - center.x)⟩

/-- The settled playfield: a list of `GRID_HEIGHT` rows, each a list of
`GRID_WIDTH` cells; `0` is the empty cell. -/
abbrev Grid := List (List Nat)

/-- Interpret a rational as a JavaScript array index: valid exactly when it
is a non-negative integer.  (The engine only ever indexes with integers;
grid reads/writes are guarded so that negative indices are handled before
indexing.) -/
def qToIdx? (q : ℚ) : Option Nat :=
  if q.den = 1 ∧ 0 ≤ q.num then some q.num.toNat else none

/-- Read the grid cell `grid[py][px]`; `none` models an access that does not
hit an array element (row or column index invalid). -/
def gridCell (g : Grid) (px py : ℚ) : Option Nat :=
  (qToIdx? py).bind fun r =>
    (qToIdx? px).bind fun c =>
      (g.get? r).bind fun row => row.get? c

/-- A piece: its 4 block offsets, rotation centroid, numeric identity and
grid position, as in the source class `Piece`.  (The source constructor
asserts 4 blocks, a half-integer centroid and a positive integer identity;
these hold for every piece built below.) -/
structure Piece where
  blocks : List Point
  centroid : Point
  index : Nat
  position : Point
deriving DecidableEq, Repr

/-- Source `Piece.rotate(ccw)`: rotate every block about the centroid,
in place and unconditionally. -/
def Piece.rotate (p : Piece) (ccw : Bool := false) : Piece :=
  { p with blocks := p.blocks.map fun pt => pt.rotate ccw p.centroid }

/-- The block-by-block loop of source `Piece.fitsAt`, with its exact
early-return structure: out-of-range column or too-low row rejects; a row
above the grid is skipped; an occupied cell rejects. -/
def fitsBlocks (g : Grid) (x y : ℚ) : List Point → Bool
  | [] => true
  | pt :: rest =>
    let px := pt.x + x
    let py := pt.y + y
    if px < 0 ∨ (GRID_WIDTH : ℚ) ≤ px ∨ (GRID_HEIGHT : ℚ) ≤ py then false
    else if py < 0 then fitsBlocks g x y rest
    else if gridCell g px py ≠ some 0 then false
    else fitsBlocks g x y rest

/-- Source `Piece.fitsAt(x, y)`: do all blocks fit at position `(x, y)`? -/
def Piece.fitsAt (p : Piece) (g : Grid) (x y : ℚ) : Bool :=
  fitsBlocks g x y p.blocks

/-- Write `v` into `grid[py][px]`.  JavaScript throws (here: `none`) exactly
when the ROW index does not hit an array element; an assignment through a
valid row but an out-of-range column never throws and changes no cell of
the modelled grid (JavaScript would store it outside the `GRID_WIDTH`
row proper). -/
def writeCell (g : Grid) (px py : ℚ) (v : Nat) : Option Grid :=
  match qToIdx? py with
  | none => none
  | some r =>
    if r < g.length then
      some (g.set r (match qToIdx? px with
        | none => g.getD r []
        | some c => (g.getD r []).set c v))
    else none

/-- The block loop of source `Piece.place`, writing blocks one at a time
(a thrown error aborts the remaining writes). -/
def placeBlocks (x y : ℚ) (v : Nat) (g : Grid) : List Point → Option Grid
  | [] => some g
  | pt :: rest =>
    match writeCell g (pt.x + x) (pt.y + y) v with
    | none => none
    | some g2 => placeBlocks x y v g2 rest

/-- Source `Piece.place()`: commit every block's identity into the grid at
the piece's current position. -/
def Piece.place (p : Piece) (g : Grid) : Option Grid :=
  placeBlocks p.position.x p.position.y p.index g p.blocks

/-- Source `Piece.moveDown()`: returns (locked?, updated piece, updated
grid); `none` models the error thrown when the commit indexes a
nonexistent row. -/
def Piece.moveDown (p : Piece) (g : Grid) : Option (Bool × Piece × Grid) :=
  if p.fitsAt g p.position.x (p.position.y + 1) then
    some (false, { p with position := ⟨p.position.x, p.position.y + 1⟩ }, g)
  else
    (p.place g).map fun g2 => (true, p, g2)

/-- Source constant `MAX_KICK`. -/
def MAX_KICK : Nat := 3

/-- Source `KICK_RANGE`: the integers `-MAX_KICK .. MAX_KICK` ascending. -/
def KICK_RANGE : List ℚ :=
  (List.range (2 * MAX_KICK + 1)).map fun i => (i : ℚ) - (MAX_KICK : ℚ)

/-- Squared magnitude, the sort key of the kick table comparator. -/
def sqmag (p : Point) : ℚ := p.x * p.x + p.y * p.y

/-- Source `KICK_DELTAS`: all (dx, dy) pairs of `KICK_RANGE`, flattened in
the source's row order, then sorted by ascending squared magnitude.
JavaScript `Array.prototype.sort` is stable; `List.insertionSort` with a
`≤` comparator is likewise stable, so ties keep their generation order. -/
def KICK_DELTAS : List Point :=
  ((KICK_RANGE.map fun dy => KICK_RANGE.map fun dx => (⟨dx, dy⟩ : Point)).foldl
      (fun a b => a ++ b) []).insertionSort fun a b => sqmag a ≤ sqmag b

/-- The offset-trying loop of source `Piece.kickRotate`: the first delta at
which the (already rotated) piece fits, if any. -/
def kickLoop (g : Grid) (p : Piece) : List Point → Option Point
  | [] => none
  | d :: ds =>
    if p.fitsAt g (p.position.x + d.x) (p.position.y + d.y) then some d
    else kickLoop g p ds

/-- Source `Piece.kickRotate(ccw)`: rotate unconditionally, try the kick
offsets in table order, apply the first that fits; otherwise rotate back
and report failure. -/
def Piece.kickRotate (p : Piece) (g : Grid) (ccw : Bool) : Bool × Piece :=
  let p1 := p.rotate ccw
  match kickLoop g p1 KICK_DELTAS with
  | some d =>
    (true, { p1 with position := ⟨p1.position.x + d.x, p1.position.y + d.y⟩ })
  | none => (false, p1.rotate (!ccw))

/-- Is a row completely occupied (source: `row.every(x => x !== 0)`)? -/
def rowFull (row : List Nat) : Bool := row.all fun c => c != 0

/-- The downward scan of source `clearLines`: for `y` from `GRID_HEIGHT - 1`
down to `0`, splice out row `y` if it is full.  The second argument is the
loop counter (`y + 1`). -/
def clearLoop : Grid → Nat → Grid
  | g, 0 => g
  | g, y + 1 => clearLoop (if rowFull (g.getD y []) then g.eraseIdx y else g) y

/-- A fresh empty row. -/
def emptyRow : List Nat := List.replicate GRID_WIDTH 0

/-- Source `clearLines()`: remove full rows (bottom-to-top splice scan),
then unshift fresh empty rows until the grid has `GRID_HEIGHT` rows. -/
def clearLines (g : Grid) : Grid :=
  let g2 := clearLoop g GRID_HEIGHT
  List.replicate (GRID_HEIGHT - g2.length) emptyRow ++ g2

/-- Source `movePieceDown()`, on the branch where `currentPiece` is not
null (the other branch calls `spawn()` and is driven by the external
randomness of the bag): run `moveDown()`; on `true` (locked) set the piece
slot to null, otherwise call `clearLines()`.  Result is (new piece slot,
new grid); `none` models a thrown error. -/
def movePieceDown (g : Grid) (p : Piece) : Option (Option Piece × Grid) :=
  (p.moveDown g).map fun r =>
    if r.1 then (none, r.2.2) else (some r.2.1, clearLines r.2.2)

/-- Source `PIECE_STRINGS`: the 7 textual 4x4 piece templates
(I, J, L, O, S, Z, T), each flattened to a 16-character string. -/
def PIECE_STRINGS : List String :=
  ["#   O:  O:  #   ",
   " #   O  ##      ",
   "#   O   ##      ",
   "OO  OO          ",
   " ## #O          ",
   "##   O#         ",
   "#O#  #          "]

/-- Source `pieceFromString(str, index)`: scan the 16 cells row-major;
`#`/`O` cells are blocks, `O`/`:` cells are averaged into the centroid. -/
def pieceFromString (str : String) (index : Nat) : Piece :=
  let cells := (List.range (NUM_BLOCKS * NUM_BLOCKS)).map fun i =>
    (str.data.getD i ' ', i % NUM_BLOCKS, i / NUM_BLOCKS)
  let blocks := cells.filterMap fun ci =>
    if ci.1 = '#' ∨ ci.1 = 'O' then
      some (⟨(ci.2.1 : ℚ), (ci.2.2 : ℚ)⟩ : Point)
    else none
  let cents := cells.filterMap fun ci =>
    if ci.1 = 'O' ∨ ci.1 = ':' then some ((ci.2.1 : ℚ), (ci.2.2 : ℚ)) else none
  { blocks := blocks
    centroid := ⟨(cents.map Prod.fst).sum / (cents.length : ℚ),
                 (cents.map Prod.snd).sum / (cents.length : ℚ)⟩
    index := index
    position := ⟨0, 0⟩ }

/-- Source `PIECES`: the catalog, identities `1 .. 7` in template order. -/
def PIECES : List Piece :=
  PIECE_STRINGS.mapIdx fun i s => pieceFromString s (i + 1)

/-- Stand-in for the JavaScript `undefined` a bad bag read would produce;
never actually read while the cursor invariant holds. -/
def dummyPiece : Piece := ⟨[], ⟨0, 0⟩, 0, ⟨0, 0⟩⟩

/-- The state of the source class `Bag`: the shuffled pieces plus cursor. -/
structure BagState where
  bag : List Piece
  cursor : Nat
deriving Repr

/-- One Fisher-Yates swap `[bag[i], bag[j]] = [bag[j], bag[i]]` (both reads
happen before both writes). -/
def swapAt (l : List Piece) (i j : Nat) : List Piece :=
  (l.set i (l.getD j dummyPiece)).set j (l.getD i dummyPiece)

/-- The shuffle loop of source `Bag.shuffle`: for `i` from `n - 1` down to
`1`, swap index `i` with the randomly chosen index `js i` (the source draws
`(Math.random() * (i + 1)) | 0`, which lies in `[0, i]`; `js` models that
sequence of draws). -/
def shuffleAux (js : Nat → Nat) : Nat → List Piece → List Piece
  | 0, bag => bag
  | i + 1, bag => shuffleAux js i (swapAt bag (i + 1) (js (i + 1)))

/-- Source `Bag.shuffle()`, with the random draws supplied as `js`. -/
def Bag.shuffle (js : Nat → Nat) (bag : List Piece) : List Piece :=
  shuffleAux js (bag.length - 1) bag

/-- Source `Bag` constructor: clone the catalog and shuffle; cursor 0. -/
def Bag.new (js : Nat → Nat) : BagState :=
  ⟨Bag.shuffle js PIECES, 0⟩

/-- Source `Bag.next()`: return the piece under the cursor, advance, and
reshuffle (with fresh draws `js`) when the bag is exhausted. -/
def Bag.next (js : Nat → Nat) (s : BagState) : Piece × BagState :=
  let ret := s.bag.getD s.cursor dummyPiece
  let i2 := s.cursor + 1
  if s.bag.length ≤ i2 then (ret, ⟨Bag.shuffle js s.bag, 0⟩)
  else (ret, ⟨s.bag, i2⟩)

/-- Repeated `Bag.next()`: one draw function per call (used only by the
call, if any, that reshuffles). -/
def Bag.nextN (jss : List (Nat → Nat)) (s : BagState) : List Piece × BagState :=
  match jss with
  | [] => ([], s)
  | js :: rest =>
    let r1 := Bag.next js s
    let r2 := Bag.nextN rest r1.2
    (r1.1 :: r2.1, r2.2)

/-- Integer-valued rational (a JavaScript number holding an int). -/
def QInt (q : ℚ) : Prop := q.den = 1

instance (q : ℚ) : Decidable (QInt q) := by unfold QInt; infer_instance

/-- A point on the integer lattice. -/
def intPt (p : Point) : Prop := QInt p.x ∧ QInt p.y

instance (p : Point) : Decidable (intPt p) := by unfold intPt; infer_instance

/-- Validity of an absolute cell address for grid indexing: both
coordinates integers, the column in `[0, GRID_WIDTH)` and the row in
`[0, GRID_HEIGHT)`. -/
def validCell (px py : ℚ) : Prop :=
  px.den = 1 ∧ 0 ≤ px.num ∧ px.num < (GRID_WIDTH : ℤ) ∧
  py.den = 1 ∧ 0 ≤ py.num ∧ py.num < (GRID_HEIGHT : ℤ)

instance (px py : ℚ) : Decidable (validCell px py) := by
  unfold validCell; infer_instance

/-- A well-formed playfield: `GRID_HEIGHT` rows of `GRID_WIDTH` cells. -/
def wfGrid (g : Grid) : Prop :=
  g.length = GRID_HEIGHT ∧ ∀ row ∈ g, row.length = GRID_WIDTH

instance (g : Grid) : Decidable (wfGrid g) := by unfold wfGrid; infer_instance

/-- Concrete scenario state: empty playfield except a completely full
bottom row (row 19). -/
def bugGrid : Grid :=
  List.replicate 19 (List.replicate 10 0) ++ [List.replicate 10 1]

/-- The O piece resting on the full bottom row: its next `moveDown` locks. -/
def bugPiece : Piece :=
  { PIECES.getD 3 dummyPiece with position := ⟨4, 17⟩ }

/-- The O piece high above the stack: its next `moveDown` just falls. -/
def highPiece : Piece :=
  { PIECES.getD 3 dummyPiece with position := ⟨4, 0⟩ }

/-- A completely empty, well-formed playfield. -/
def emptyGrid : Grid := List.replicate GRID_HEIGHT emptyRow

/-- Concrete scenario state: playfield whose TOP row (row 0) is full. -/
def topGrid : Grid :=
  [List.replicate 10 1] ++ List.replicate 19 (List.replicate 10 0)

/-- The I piece at its spawn position (0, -4): entirely above the visible
grid, blocked from moving down by the full top row of `topGrid`. -/
def spawnedI : Piece :=
  { PIECES.getD 0 dummyPiece with position := ⟨0, -4⟩ }

/-- Concrete scenario state: a completely occupied playfield, on which no
kick offset can make a mid-field piece fit. -/
def fullGrid : Grid := List.replicate 20 (List.replicate 10 1)

/-- Helper: the two branches of `Point.rotate`, written out. -/
theorem Point.rotate_false (p center : Point) :
    p.rotate false center =
      ⟨center.x + (p.y - center.y), center.y - (p.x - center.x)⟩ := by
  ext <;> simp [Point.rotate] <;> ring

/-- Helper: the `ccw = true` branch of `Point.rotate`, written out. -/
theorem Point.rotate_true (p center : Point) :
    p.rotate true center =
      ⟨center.x - (p.y - center.y), center.y + (p.x - center.x)⟩ := by
  ext <;> simp [Point.rotate] <;> ring

/-- C2, counterexample.  The claim assigns to the clockwise direction
(`ccw = false`) the formulas `x' = center.x - (y - center.y)`,
`y' = center.y + (x - center.x)`.  At point (1, 0) with center (0, 0) those
formulas give (0, 1), but `rotate` with `ccw = false` returns (0, -1); the
two formula pairs are attached to the opposite values of the `ccw` flag. -/
theorem C2_rotate_direction_counterexample :
    Point.rotate ⟨1, 0⟩ false ⟨0, 0⟩ = ⟨0, -1⟩ ∧
    (⟨0, -1⟩ : Point) ≠ ⟨(0 : ℚ) - ((0 : ℚ) - 0), (0 : ℚ) + ((1 : ℚ) - 0)⟩ := by
  constructor
  · rw [Point.rotate_false]; ext <;> norm_num
  · intro h
    have := congrArg Point.y h
    norm_num at this

/-- C2, amended: for every point and center, the rotation with
`ccw = false` returns `x' = center.x + (y - center.y)`,
`y' = center.y - (x - center.x)`, and the rotation with `ccw = true`
returns `x' = center.x - (y - center.y)`, `y' = center.y + (x - center.x)`
(the spec's formulas with the direction labels exchanged; on the y-down
screen grid the `ccw = true` branch is the visually clockwise one). -/
theorem C2_rotate_formulas (p center : Point) :
    p.rotate false center =
      ⟨center.x + (p.y - center.y), center.y - (p.x - center.x)⟩ ∧
    p.rotate true center =
      ⟨center.x - (p.y - center.y), center.y + (p.x - center.x)⟩ :=
  ⟨Point.rotate_false p center, Point.rotate_true p center⟩

/-- Helper: one full turn (four same-direction quarter rotations) is the
identity on points, exactly. -/
theorem Point.rotate_four (q c : Point) (ccw : Bool) :
    ((((q.rotate ccw c).rotate ccw c).rotate ccw c).rotate ccw c) = q := by
  cases ccw <;> (ext <;> simp [Point.rotate] <;> ring)

/-- Helper: four same-direction rotations restore any piece exactly. -/
theorem Piece.rotate_four_times (p : Piece) (ccw : Bool) :
    (((p.rotate ccw).rotate ccw).rotate ccw).rotate ccw = p := by
  cases p with
  | mk blocks centroid index position =>
    simp only [Piece.rotate, List.map_map]
    congr 1
    refine (List.map_congr_left fun q _ => ?_).trans (List.map_id blocks)
    exact Point.rotate_four q centroid ccw

/-- C7: for every catalog piece kind and either rotation direction,
rotating four consecutive times in the same direction returns every block
(indeed the whole piece) to exactly its original state. -/
theorem C7_rotate_four_id (p : Piece) (hp : p ∈ PIECES) (ccw : Bool) :
    (((p.rotate ccw).rotate ccw).rotate ccw).rotate ccw = p :=
  Piece.rotate_four_times p ccw

unseal Rat.add Rat.mul Rat.sub Rat.inv Rat.ofScientific in
/-- C7, witness: the catalog I piece, rotated four times. -/
theorem C7_rotate_four_id_witness :
    ((((PIECES.getD 0 dummyPiece).rotate true).rotate true).rotate
        true).rotate true = PIECES.getD 0 dummyPiece :=
  C7_rotate_four_id (PIECES.getD 0 dummyPiece) (by decide) true

/-- Helper: per-block characterization of the `fitsAt` loop. -/
theorem fitsBlocks_iff (g : Grid) (x y : ℚ) (l : List Point) :
    fitsBlocks g x y l = true ↔
      ∀ pt ∈ l, 0 ≤ pt.x + x ∧ pt.x + x < (GRID_WIDTH : ℚ) ∧
        pt.y + y < (GRID_HEIGHT : ℚ) ∧
        (0 ≤ pt.y + y → gridCell g (pt.x + x) (pt.y + y) = some 0) := by
  induction l with
  | nil => simp [fitsBlocks]
  | cons pt rest ih =>
    simp only [fitsBlocks, List.forall_mem_cons]
    split_ifs with h1 h2 h3
    · constructor
      · intro h; cases h
      · rintro ⟨⟨ha, hb, hc, -⟩, -⟩
        rcases h1 with h | h | h
        · exact absurd h (not_lt.mpr ha)
        · exact absurd h (not_le.mpr hb)
        · exact absurd h (not_le.mpr hc)
    · push_neg at h1
      rw [ih]
      constructor
      · intro hrest
        exact ⟨⟨h1.1, h1.2.1, h1.2.2,
          fun hy => absurd h2 (not_lt.mpr hy)⟩, hrest⟩
      · exact fun h => h.2
    · constructor
      · intro h; cases h
      · rintro ⟨⟨-, -, -, hcell⟩, -⟩
        exact h3 (hcell (not_lt.mp h2))
    · push_neg at h1
      rw [ih]
      constructor
      · intro hrest
        exact ⟨⟨h1.1, h1.2.1, h1.2.2,
          fun _ => not_not.mp h3⟩, hrest⟩
      · exact fun h => h.2

/-- C4: `fitsAt(x, y)` is true iff every block's absolute cell
`(block.x + x, block.y + y)` has its column in `[0, GRID_WIDTH)`, its row
below `GRID_HEIGHT`, and, whenever the row is nonnegative, an empty grid
cell there; rows below zero impose no occupancy condition.  (The embedding
is purely functional: `fitsAt` returns a boolean and cannot mutate the
piece or the grid.) -/
theorem C4_fitsAt_iff (g : Grid) (p : Piece) (x y : ℚ) :
    p.fitsAt g x y = true ↔
      ∀ pt ∈ p.blocks, 0 ≤ pt.x + x ∧ pt.x + x < (GRID_WIDTH : ℚ) ∧
        pt.y + y < (GRID_HEIGHT : ℚ) ∧
        (0 ≤ pt.y + y → gridCell g (pt.x + x) (pt.y + y) = some 0) :=
  fitsBlocks_iff g x y p.blocks

unseal Rat.add Rat.mul Rat.sub Rat.inv Rat.ofScientific in
/-- C4, witness: the characterization applied to the O piece on the empty
grid at position (4, 0). -/
theorem C4_fitsAt_iff_witness :
    ∀ pt ∈ (PIECES.getD 3 dummyPiece).blocks,
      0 ≤ pt.x + 4 ∧ pt.x + 4 < (GRID_WIDTH : ℚ) ∧
        pt.y + 0 < (GRID_HEIGHT : ℚ) ∧
        (0 ≤ pt.y + 0 → gridCell emptyGrid (pt.x + 4) (pt.y + 0) = some 0) :=
  (C4_fitsAt_iff emptyGrid (PIECES.getD 3 dummyPiece) 4 0).mp (by decide)

/-- Helper: a rational maps to array index `n` exactly when it equals `n`. -/
theorem qToIdx?_eq_some {q : ℚ} {n : Nat} : qToIdx? q = some n ↔ q = (n : ℚ) := by
  unfold qToIdx?
  split_ifs with h
  · obtain ⟨hden, hnum⟩ := h
    have hq : (q.num : ℚ) = q := (Rat.den_eq_one_iff q).mp hden
    constructor
    · rintro h2
      have h3 : q.num.toNat = n := by simpa using h2
      rw [← hq, ← h3]
      norm_cast
      omega
    · intro h2
      have h4 : q.num = (n : ℤ) := by
        have : ((n : ℚ) : ℚ).num = (n : ℤ) := by norm_cast
        rw [h2]; norm_cast
      simp [h4]
  · constructor
    · rintro ⟨⟩
    · intro h2
      exfalso
      apply h
      rw [h2]
      constructor
      · norm_cast
      · norm_cast
        omega

/-- Helper: negative rationals are not valid indices. -/
theorem qToIdx?_neg {q : ℚ} (h : q < 0) : qToIdx? q = none := by
  unfold qToIdx?
  split_ifs with h2
  · exfalso
    obtain ⟨hden, hnum⟩ := h2
    have hq : (q.num : ℚ) = q := (Rat.den_eq_one_iff q).mp hden
    have : (0 : ℚ) ≤ q := by
      rw [← hq]
      exact_mod_cast hnum
    exact absurd h (not_lt.mpr this)
  · rfl

/-- Helper: a write with a negative row index throws. -/
theorem writeCell_none_of_neg (g : Grid) (px py : ℚ) (v : Nat) (h : py < 0) :
    writeCell g px py v = none := by
  unfold writeCell
  rw [qToIdx?_neg h]

/-- Helper: the commit loop throws as soon as it reaches a block whose
absolute row is negative. -/
theorem placeBlocks_none (x y : ℚ) (v : Nat) :
    ∀ (l : List Point) (g : Grid), (∃ pt ∈ l, pt.y + y < 0) →
      placeBlocks x y v g l = none := by
  intro l
  induction l with
  | nil => rintro g ⟨pt, h, -⟩; cases h
  | cons pt rest ih =>
    rintro g ⟨q, hq, hneg⟩
    rcases List.mem_cons.mp hq with h | h
    · subst h
      simp [placeBlocks, writeCell_none_of_neg g _ _ v hneg]
    · show placeBlocks x y v g (pt :: rest) = none
      rw [placeBlocks]
      cases hw : writeCell g (pt.x + x) (pt.y + y) v with
      | none => rfl
      | some g2 => exact ih g2 ⟨q, h, hneg⟩

/-- Helper: a write whose row index is a valid in-range integer succeeds
and preserves the number of rows (whatever the column is). -/
theorem writeCell_some_of_row (g : Grid) (px py : ℚ) (v : Nat)
    (hden : py.den = 1) (hpos : 0 ≤ py.num) (hlt : py.num.toNat < g.length) :
    ∃ g2, writeCell g px py v = some g2 ∧ g2.length = g.length := by
  have hidx : qToIdx? py = some py.num.toNat := by
    unfold qToIdx?
    simp [hden, hpos]
  unfold writeCell
  rw [hidx]
  dsimp only
  rw [if_pos hlt]
  exact ⟨_, rfl, List.length_set ..⟩

/-- Helper: the commit loop succeeds whenever every block's absolute row is
a valid in-range integer (columns unconstrained), and it preserves the
number of rows. -/
theorem placeBlocks_some_of_rows (x y : ℚ) (v : Nat) :
    ∀ (l : List Point) (g : Grid),
      (∀ pt ∈ l, (pt.y + y).den = 1 ∧ 0 ≤ (pt.y + y).num ∧
        (pt.y + y).num.toNat < g.length) →
      ∃ g2, placeBlocks x y v g l = some g2 ∧ g2.length = g.length := by
  intro l
  induction l with
  | nil => exact fun g _ => ⟨g, rfl, rfl⟩
  | cons pt rest ih =>
    intro g h
    obtain ⟨hden, hpos, hlt⟩ := h pt (List.mem_cons_self ..)
    obtain ⟨g1, hw, hlen1⟩ := writeCell_some_of_row g (pt.x + x) (pt.y + y) v hden hpos hlt
    obtain ⟨g2, hp, hlen2⟩ := ih g1 fun q hq => by
      obtain ⟨a, b, c⟩ := h q (List.mem_cons_of_mem _ hq)
      exact ⟨a, b, by rw [hlen1]; exact c⟩
    refine ⟨g2, ?_, by rw [hlen2, hlen1]⟩
    rw [placeBlocks, hw]
    exact hp

/-- Helper: a write at a fully valid cell succeeds, keeps the grid
well-formed, sets that cell and changes no other cell. -/
theorem writeCell_spec (g : Grid) (px py : ℚ) (v : Nat)
    (hwf : wfGrid g) (hv : validCell px py) :
    ∃ g2, writeCell g px py v = some g2 ∧ wfGrid g2 ∧
      ∀ c r : ℚ,
        (c = px ∧ r = py → gridCell g2 c r = some v) ∧
        (¬(c = px ∧ r = py) → gridCell g2 c r = gridCell g c r) := by
  obtain ⟨hxd, hx0, hxlt, hyd, hy0, hylt⟩ := hv
  have hcx : qToIdx? px = some px.num.toNat := by unfold qToIdx?; simp [hxd, hx0]
  have hcy : qToIdx? py = some py.num.toNat := by unfold qToIdx?; simp [hyd, hy0]
  have hpx : px = (px.num.toNat : ℚ) := qToIdx?_eq_some.mp hcx
  have hpy : py = (py.num.toNat : ℚ) := qToIdx?_eq_some.mp hcy
  have hy20 : py.num < 20 := by simpa [GRID_HEIGHT] using hylt
  have hx10 : px.num < 10 := by simpa [GRID_WIDTH] using hxlt
  have hrI : py.num.toNat < g.length := by
    rw [hwf.1]; show py.num.toNat < 20; omega
  have hrow : g.getD py.num.toNat [] = g[py.num.toNat] :=
    List.getD_eq_getElem g [] hrI
  have hrowlen : (g.getD py.num.toNat []).length = GRID_WIDTH := by
    rw [hrow]; exact hwf.2 _ (List.getElem_mem hrI)
  have hcI : px.num.toNat < (g.getD py.num.toNat []).length := by
    rw [hrowlen]; show px.num.toNat < 10; omega
  refine ⟨g.set py.num.toNat ((g.getD py.num.toNat []).set px.num.toNat v),
    ?_, ⟨?_, ?_⟩, ?_⟩
  · unfold writeCell
    rw [hcy]
    dsimp only
    rw [if_pos hrI, hcx]
  · rw [List.length_set]; exact hwf.1
  · intro row hrowm
    rcases List.mem_or_eq_of_mem_set hrowm with h | h
    · exact hwf.2 row h
    · rw [h, List.length_set]; exact hrowlen
  · intro c r
    constructor
    · rintro ⟨rfl, rfl⟩
      unfold gridCell
      rw [hcx, hcy]
      simp only [Option.some_bind]
      rw [List.get?_eq_getElem?, List.getElem?_set, if_pos rfl, if_pos hrI]
      simp only [Option.some_bind]
      rw [List.get?_eq_getElem?, List.getElem?_set, if_pos rfl, if_pos hcI]
    · intro hne
      unfold gridCell
      cases hr : qToIdx? r with
      | none => rfl
      | some rI =>
        cases hc : qToIdx? c with
        | none => rfl
        | some cI =>
          simp only [Option.some_bind]
          by_cases hrr : rI = py.num.toNat
          · subst hrr
            have hreq : r = py := (qToIdx?_eq_some.mp hr).trans hpy.symm
            have hcne : ¬c = px := fun hcc => hne ⟨hcc, hreq⟩
            have hcine : cI ≠ px.num.toNat := by
              intro hh
              exact hcne ((qToIdx?_eq_some.mp hc).trans (by rw [hh, ← hpx]))
            rw [List.get?_eq_getElem?, List.get?_eq_getElem?,
              List.getElem?_set, if_pos rfl, if_pos hrI,
              List.getElem?_eq_getElem hrI, ← hrow]
            simp only [Option.some_bind]
            rw [List.get?_eq_getElem?, List.get?_eq_getElem?,
              List.getElem?_set, if_neg (fun hh => hcine hh.symm)]
          · rw [List.get?_eq_getElem?, List.get?_eq_getElem?,
              List.getElem?_set, if_neg (fun hh => hrr hh.symm)]

/-- Helper: the commit loop, with every block cell fully valid, succeeds,
keeps the grid well-formed, writes `v` at exactly the block cells and
leaves every other cell unchanged. -/
theorem placeBlocks_spec (x y : ℚ) (v : Nat) :
    ∀ (l : List Point) (g : Grid), wfGrid g →
      (∀ pt ∈ l, validCell (pt.x + x) (pt.y + y)) →
      ∃ g2, placeBlocks x y v g l = some g2 ∧ wfGrid g2 ∧
        ∀ c r : ℚ,
          ((∃ pt ∈ l, pt.x + x = c ∧ pt.y + y = r) → gridCell g2 c r = some v) ∧
          ((∀ pt ∈ l, ¬(pt.x + x = c ∧ pt.y + y = r)) →
            gridCell g2 c r = gridCell g c r) := by
  intro l
  induction l with
  | nil =>
    intro g hwf _
    exact ⟨g, rfl, hwf,
      fun c r => ⟨(by rintro ⟨pt, h, -⟩; cases h), fun _ => rfl⟩⟩
  | cons pt rest ih =>
    intro g hwf hv
    obtain ⟨g1, hw1, hwf1, hcells1⟩ :=
      writeCell_spec g (pt.x + x) (pt.y + y) v hwf (hv pt (List.mem_cons_self ..))
    obtain ⟨g2, hp2, hwf2, hcells2⟩ :=
      ih g1 hwf1 fun q hq => hv q (List.mem_cons_of_mem _ hq)
    refine ⟨g2, ?_, hwf2, ?_⟩
    · rw [placeBlocks, hw1]; exact hp2
    · intro c r
      constructor
      · rintro ⟨q, hq, hqc, hqr⟩
        rcases List.mem_cons.mp hq with h | h
        · subst h
          by_cases hrest : ∃ q2 ∈ rest, q2.x + x = c ∧ q2.y + y = r
          · exact (hcells2 c r).1 hrest
          · push_neg at hrest
            rw [(hcells2 c r).2 fun q2 hq2 hh => hrest q2 hq2 hh.1 hh.2]
            exact (hcells1 c r).1 ⟨hqc.symm, hqr.symm⟩
        · exact (hcells2 c r).1 ⟨q, h, hqc, hqr⟩
      · intro hnone
        rw [(hcells2 c r).2 fun q hq => hnone q (List.mem_cons_of_mem _ hq)]
        exact (hcells1 c r).2
          fun hh => hnone pt (List.mem_cons_self ..) ⟨hh.1.symm, hh.2.symm⟩

/-- C5: `moveDown()` either advances one row (when the cell below fits)
leaving the grid untouched and reporting "not locked", or leaves the piece
unchanged, commits every block's identity into the grid at the block's
absolute coordinates (changing no other cell), and reports "locked". -/
theorem C5_moveDown (g : Grid) (p : Piece) :
    (p.fitsAt g p.position.x (p.position.y + 1) = true →
      p.moveDown g =
        some (false, { p with position := ⟨p.position.x, p.position.y + 1⟩ },
          g)) ∧
    (p.fitsAt g p.position.x (p.position.y + 1) = false → wfGrid g →
      (∀ pt ∈ p.blocks,
        validCell (pt.x + p.position.x) (pt.y + p.position.y)) →
      ∃ g2, p.moveDown g = some (true, p, g2) ∧
        (∀ pt ∈ p.blocks,
          gridCell g2 (pt.x + p.position.x) (pt.y + p.position.y) =
            some p.index) ∧
        (∀ c r : ℚ,
          (∀ pt ∈ p.blocks,
            ¬(pt.x + p.position.x = c ∧ pt.y + p.position.y = r)) →
          gridCell g2 c r = gridCell g c r)) := by
  constructor
  · intro h
    unfold Piece.moveDown
    rw [if_pos h]
  · intro h hwf hv
    obtain ⟨g2, hpl, _, hcells⟩ :=
      placeBlocks_spec p.position.x p.position.y p.index p.blocks g hwf hv
    refine ⟨g2, ?_, ?_, ?_⟩
    · unfold Piece.moveDown
      rw [if_neg (by simp [h]), Piece.place, hpl]
      rfl
    · exact fun pt hpt => (hcells _ _).1 ⟨pt, hpt, rfl, rfl⟩
    · exact fun c r hn => (hcells c r).2 hn

unseal Rat.add Rat.mul Rat.sub Rat.inv Rat.ofScientific in
/-- C5, witness: the O piece falling one row on the empty grid, and the O
piece locking into the grid with the full bottom row. -/
theorem C5_moveDown_witness :
    (highPiece.moveDown emptyGrid =
      some (false,
        { highPiece with
            position := ⟨highPiece.position.x, highPiece.position.y + 1⟩ },
        emptyGrid)) ∧
    ∃ g2, bugPiece.moveDown bugGrid = some (true, bugPiece, g2) ∧
      (∀ pt ∈ bugPiece.blocks,
        gridCell g2 (pt.x + bugPiece.position.x)
          (pt.y + bugPiece.position.y) = some bugPiece.index) ∧
      (∀ c r : ℚ,
        (∀ pt ∈ bugPiece.blocks,
          ¬(pt.x + bugPiece.position.x = c ∧
            pt.y + bugPiece.position.y = r)) →
        gridCell g2 c r = gridCell bugGrid c r) :=
  ⟨(C5_moveDown emptyGrid highPiece).1 (by decide),
   (C5_moveDown bugGrid bugPiece).2 (by decide) (by decide) (by decide)⟩

/-- C9: when a lock commits a piece having a block with absolute row < 0,
the commit indexes a nonexistent grid row and the run aborts with an error
(`none`); with every absolute block row an integer in `[0, GRID_HEIGHT)`
the commit never errors (whatever the columns are) and keeps the row
count, and with fully valid cells on a well-formed grid all writes land in
bounds at exactly the block cells. -/
theorem C9_place_rows (g : Grid) (p : Piece) :
    (p.fitsAt g p.position.x (p.position.y + 1) = false →
      (∃ pt ∈ p.blocks, pt.y + p.position.y < 0) → p.moveDown g = none) ∧
    (g.length = GRID_HEIGHT →
      (∀ pt ∈ p.blocks, (pt.y + p.position.y).den = 1 ∧
        0 ≤ (pt.y + p.position.y).num ∧
        (pt.y + p.position.y).num < (GRID_HEIGHT : ℤ)) →
      ∃ g2, p.place g = some g2 ∧ g2.length = GRID_HEIGHT) ∧
    (wfGrid g →
      (∀ pt ∈ p.blocks,
        validCell (pt.x + p.position.x) (pt.y + p.position.y)) →
      ∃ g2, p.place g = some g2 ∧ wfGrid g2 ∧
        ∀ pt ∈ p.blocks,
          gridCell g2 (pt.x + p.position.x) (pt.y + p.position.y) =
            some p.index) := by
  refine ⟨?_, ?_, ?_⟩
  · intro h hneg
    unfold Piece.moveDown
    rw [if_neg (by simp [h]), Piece.place,
      placeBlocks_none p.position.x p.position.y p.index p.blocks g hneg]
    rfl
  · intro hg hrows
    have h20 : (GRID_HEIGHT : ℤ) = 20 := by norm_num [GRID_HEIGHT]
    obtain ⟨g2, hp, hlen⟩ :=
      placeBlocks_some_of_rows p.position.x p.position.y p.index p.blocks g
        (fun pt hpt => by
          obtain ⟨a, b, c⟩ := hrows pt hpt
          refine ⟨a, b, ?_⟩
          rw [hg]
          show _ < 20
          rw [h20] at c
          omega)
    exact ⟨g2, hp, by rw [hlen, hg]⟩
  · intro hwf hv
    obtain ⟨g2, hp, hwf2, hcells⟩ :=
      placeBlocks_spec p.position.x p.position.y p.index p.blocks g hwf hv
    exact ⟨g2, hp, hwf2, fun pt hpt => (hcells _ _).1 ⟨pt, hpt, rfl, rfl⟩⟩

unseal Rat.add Rat.mul Rat.sub Rat.inv Rat.ofScientific in
/-- C9, witness: the spawned I piece locking above the visible grid throws,
and the O piece committing at fully valid cells succeeds in bounds. -/
theorem C9_place_rows_witness :
    spawnedI.moveDown topGrid = none ∧
    (∃ g2, bugPiece.place bugGrid = some g2 ∧ g2.length = GRID_HEIGHT) ∧
    (∃ g2, bugPiece.place bugGrid = some g2 ∧ wfGrid g2 ∧
      ∀ pt ∈ bugPiece.blocks,
        gridCell g2 (pt.x + bugPiece.position.x)
          (pt.y + bugPiece.position.y) = some bugPiece.index) :=
  ⟨(C9_place_rows topGrid spawnedI).1 (by decide) (by decide),
   (C9_place_rows bugGrid bugPiece).2.1 (by decide) (by decide),
   (C9_place_rows bugGrid bugPiece).2.2 (by decide) (by decide)⟩

/-- Helper: the splice scan, run over exactly the indices of a prefix,
filters the full rows out of that prefix and leaves the tail alone.  This
is the heart of why the downward scan neither skips nor double-counts rows
as splices shift the indices above the scan position. -/
theorem clearLoop_filter (pre : Grid) :
    ∀ post : Grid, clearLoop (pre ++ post) pre.length =
      pre.filter (fun row => !rowFull row) ++ post := by
  induction pre using List.reverseRecOn with
  | nil => intro post; simp [clearLoop]
  | append_singleton l a ih =>
    intro post
    have hlen : (l ++ [a]).length = l.length + 1 := by simp
    rw [hlen, clearLoop]
    have hget : ((l ++ [a]) ++ post).getD l.length [] = a := by
      rw [List.getD_eq_getElem?_getD, List.append_assoc,
        List.getElem?_append_right (Nat.le_refl _)]
      simp
    have herase : ((l ++ [a]) ++ post).eraseIdx l.length = l ++ post := by
      rw [List.append_assoc,
        List.eraseIdx_append_of_length_le (Nat.le_refl _)]
      simp
    rw [hget]
    by_cases hfull : rowFull a
    · rw [if_pos hfull, herase, ih post, List.filter_append]
      simp [hfull]
    · rw [if_neg hfull, List.append_assoc, List.singleton_append, ih,
        List.filter_append]
      simp [hfull]

/-- C6: on a full-height grid, `clearLines` removes exactly the full rows
and prepends that many fresh empty rows: the result is the
filter-the-full-rows-out grid with empty rows on top, and it has exactly
`GRID_HEIGHT` rows again. -/
theorem C6_clearLines (g : Grid) (hg : g.length = GRID_HEIGHT) :
    clearLines g =
      List.replicate (GRID_HEIGHT - (g.filter (fun row => !rowFull row)).length)
        emptyRow ++ g.filter (fun row => !rowFull row) ∧
    (clearLines g).length = GRID_HEIGHT := by
  have hloop : clearLoop g GRID_HEIGHT = g.filter (fun row => !rowFull row) := by
    have := clearLoop_filter g []
    rw [List.append_nil, hg] at this
    rw [this, List.append_nil]
  have hle : (g.filter (fun row => !rowFull row)).length ≤ GRID_HEIGHT := by
    rw [← hg]; exact List.length_filter_le _ g
  constructor
  · rw [clearLines, hloop]
  · rw [clearLines, hloop]
    simp only [List.length_append, List.length_replicate]
    omega

unseal Rat.add Rat.mul Rat.sub Rat.inv Rat.ofScientific in
/-- C6, witness: clearing the grid with the full bottom row removes it and
restores the height. -/
theorem C6_clearLines_witness :
    clearLines bugGrid =
      List.replicate
        (GRID_HEIGHT - (bugGrid.filter (fun row => !rowFull row)).length)
        emptyRow ++ bugGrid.filter (fun row => !rowFull row) ∧
    (clearLines bugGrid).length = GRID_HEIGHT :=
  C6_clearLines bugGrid (by decide)

unseal Rat.add Rat.mul Rat.sub Rat.inv Rat.ofScientific in
/-- C1: evaluation of the gravity step at a failing input.  With the O
piece resting on the full bottom row, `movePieceDown` locks the piece
(the slot becomes empty) but the resulting grid STILL contains the full
row 19, and applying `clearLines` to that grid would change it — so the
line clear did not run on the lock.  With the same grid and a high
non-locking piece, the piece survives the tick but the grid comes back
changed — `clearLines` ran on the non-lock branch instead.  The spec's
claim (clear on lock, grid untouched otherwise) is the reverse of what
the code does. -/
theorem C1_lock_skips_clearLines :
    ((movePieceDown bugGrid bugPiece).map Prod.fst = some none) ∧
    ((movePieceDown bugGrid bugPiece).map
        (fun r => rowFull (r.2.getD 19 [])) = some true) ∧
    ((movePieceDown bugGrid bugPiece).map
        (fun r => decide (clearLines r.2 = r.2)) = some false) ∧
    ((movePieceDown bugGrid highPiece).map
        (fun r => ((r.1).map Piece.index, decide (r.2 = bugGrid))) =
      some (some 4, false)) := by
  decide

/-- Helper: integer-valued rationals are the integer casts. -/
theorem QInt_iff {q : ℚ} : QInt q ↔ ∃ n : ℤ, q = (n : ℚ) := by
  unfold QInt
  constructor
  · intro h
    exact ⟨q.num, ((Rat.den_eq_one_iff q).mp h).symm⟩
  · rintro ⟨n, rfl⟩
    exact Rat.den_intCast n

/-- Helper: integer-valued rationals are closed under addition. -/
theorem QInt.add {a b : ℚ} (ha : QInt a) (hb : QInt b) : QInt (a + b) := by
  rw [QInt_iff] at *
  obtain ⟨m, rfl⟩ := ha
  obtain ⟨n, rfl⟩ := hb
  exact ⟨m + n, by push_cast; ring⟩

/-- Helper: integer-valued rationals are closed under subtraction. -/
theorem QInt.sub {a b : ℚ} (ha : QInt a) (hb : QInt b) : QInt (a - b) := by
  rw [QInt_iff] at *
  obtain ⟨m, rfl⟩ := ha
  obtain ⟨n, rfl⟩ := hb
  exact ⟨m - n, by push_cast; ring⟩

/-- Helper: a 90-degree rotation about a center whose coordinate sum and
difference are integers maps lattice points to lattice points. -/
theorem rotate_intPt {c : Point} (hd : QInt (c.x - c.y)) (hs : QInt (c.x + c.y))
    {q : Point} (hq : intPt q) (ccw : Bool) : intPt (q.rotate ccw c) := by
  obtain ⟨hqx, hqy⟩ := hq
  cases ccw with
  | false =>
    constructor
    · have h : (q.rotate false c).x = (c.x - c.y) + q.y := by
        simp [Point.rotate]; ring
      rw [h]; exact QInt.add hd hqy
    · have h : (q.rotate false c).y = (c.x + c.y) - q.x := by
        simp [Point.rotate]; ring
      rw [h]; exact QInt.sub hs hqx
  | true =>
    constructor
    · have h : (q.rotate true c).x = (c.x + c.y) - q.y := by
        simp [Point.rotate]; ring
      rw [h]; exact QInt.sub hs hqy
    · have h : (q.rotate true c).y = q.x - (c.x - c.y) := by
        simp [Point.rotate]; ring
      rw [h]; exact QInt.sub hqx hd

/-- Helper: rotating a piece with such a centroid keeps all blocks on the
integer lattice. -/
theorem rotate_blocks_int (p2 : Piece) (hd : QInt (p2.centroid.x - p2.centroid.y))
    (hs : QInt (p2.centroid.x + p2.centroid.y))
    (hb : ∀ b ∈ p2.blocks, intPt b) (ccw : Bool) :
    ∀ b ∈ (p2.rotate ccw).blocks, intPt b := by
  intro b hbm
  rw [Piece.rotate] at hbm
  obtain ⟨q, hq, rfl⟩ := List.mem_map.mp hbm
  exact rotate_intPt hd hs (hb q hq) ccw

unseal Rat.add Rat.mul Rat.sub Rat.inv Rat.ofScientific in
/-- C10: every catalog piece has integer block coordinates and an integer
centroid coordinate difference, and (because the catalog centroids also
have an integer coordinate sum) rotating about the centroid preserves
block integrality, both for bare rotation and through `kickRotate`,
whatever piece carrying a catalog centroid it is applied to. -/
theorem C10_integrality :
    ∀ p ∈ PIECES,
      (∀ b ∈ p.blocks, intPt b) ∧ QInt (p.centroid.x - p.centroid.y) ∧
      (∀ p2 : Piece, p2.centroid = p.centroid →
        (∀ b ∈ p2.blocks, intPt b) →
        ∀ (ccw : Bool) (g : Grid),
          (∀ b ∈ (p2.rotate ccw).blocks, intPt b) ∧
          (∀ b ∈ (p2.kickRotate g ccw).2.blocks, intPt b)) := by
  have hfacts : ∀ p ∈ PIECES, (∀ b ∈ p.blocks, intPt b) ∧
      QInt (p.centroid.x - p.centroid.y) ∧
      QInt (p.centroid.x + p.centroid.y) := by decide
  intro p hp
  obtain ⟨hblocks, hd, hs⟩ := hfacts p hp
  refine ⟨hblocks, hd, ?_⟩
  intro p2 hc hb2 ccw g
  have hd2 : QInt (p2.centroid.x - p2.centroid.y) := by rw [hc]; exact hd
  have hs2 : QInt (p2.centroid.x + p2.centroid.y) := by rw [hc]; exact hs
  have hrot := rotate_blocks_int p2 hd2 hs2 hb2 ccw
  refine ⟨hrot, ?_⟩
  unfold Piece.kickRotate
  dsimp only
  cases hk : kickLoop g (p2.rotate ccw) KICK_DELTAS with
  | some d => simp only [hk]; exact hrot
  | none =>
    simp only [hk]
    exact rotate_blocks_int (p2.rotate ccw) hd2 hs2 hrot (!ccw)

unseal Rat.add Rat.mul Rat.sub Rat.inv Rat.ofScientific in
/-- C10, witness: integrality through a rotation and a kick-rotation of
the catalog I piece on the empty grid. -/
theorem C10_integrality_witness :
    (∀ b ∈ ((PIECES.getD 0 dummyPiece).rotate true).blocks, intPt b) ∧
    (∀ b ∈ ((PIECES.getD 0 dummyPiece).kickRotate emptyGrid true).2.blocks,
      intPt b) :=
  (C10_integrality (PIECES.getD 0 dummyPiece) (by decide)).2.2
    (PIECES.getD 0 dummyPiece) rfl (by decide) true emptyGrid

/-- Helper: a quarter rotation followed by the opposite quarter rotation
restores a point exactly. -/
theorem Point.rotate_back (q c : Point) (ccw : Bool) :
    (q.rotate ccw c).rotate (!ccw) c = q := by
  cases ccw <;> (ext <;> simp [Point.rotate] <;> ring)

/-- Helper: a piece rotation followed by the opposite rotation restores
the piece exactly. -/
theorem Piece.rotate_undo (p : Piece) (ccw : Bool) :
    (p.rotate ccw).rotate (!ccw) = p := by
  cases p with
  | mk blocks centroid index position =>
    simp only [Piece.rotate, List.map_map]
    congr 1
    refine (List.map_congr_left fun q _ => ?_).trans (List.map_id blocks)
    exact Point.rotate_back q centroid ccw

/-- Helper: the kick-offset loop returns the first fitting offset. -/
theorem kickLoop_eq_find? (g : Grid) (p : Piece) :
    ∀ l : List Point, kickLoop g p l =
      l.find? fun d =>
        p.fitsAt g (p.position.x + d.x) (p.position.y + d.y) := by
  intro l
  induction l with
  | nil => rfl
  | cons d ds ih =>
    rw [kickLoop]
    by_cases h : p.fitsAt g (p.position.x + d.x) (p.position.y + d.y) = true
    · rw [if_pos h]
      exact (List.find?_cons_of_pos ds h).symm
    · rw [if_neg (by simp [h]), ih]
      exact (List.find?_cons_of_neg ds (by simp [h])).symm

unseal Rat.add Rat.mul Rat.sub Rat.inv Rat.ofScientific in
/-- C3: the kick table holds exactly the 49 offsets with both coordinates
integers in [-3, 3], in ascending squared-magnitude order with (0, 0)
first; `kickRotate` rotates unconditionally, then applies the first
table offset at which the rotated piece fits and returns `true`, and if
none fits it undoes the rotation, restoring the piece (blocks and
position) exactly, and returns `false`. -/
theorem C3_kickRotate :
    KICK_DELTAS.length = 49 ∧
    KICK_DELTAS.head? = some ⟨0, 0⟩ ∧
    KICK_DELTAS.Nodup ∧
    List.Sorted (fun a b => sqmag a ≤ sqmag b) KICK_DELTAS ∧
    (∀ d ∈ KICK_DELTAS,
      QInt d.x ∧ -3 ≤ d.x ∧ d.x ≤ 3 ∧ QInt d.y ∧ -3 ≤ d.y ∧ d.y ≤ 3) ∧
    (∀ dx dy : ℤ, -3 ≤ dx → dx ≤ 3 → -3 ≤ dy → dy ≤ 3 →
      (⟨(dx : ℚ), (dy : ℚ)⟩ : Point) ∈ KICK_DELTAS) ∧
    (∀ (g : Grid) (ccw : Bool) (p : Piece),
      (∀ d : Point,
        (KICK_DELTAS.find? fun e =>
          (p.rotate ccw).fitsAt g ((p.rotate ccw).position.x + e.x)
            ((p.rotate ccw).position.y + e.y)) = some d →
        p.kickRotate g ccw =
          (true, { p.rotate ccw with
            position := ⟨(p.rotate ccw).position.x + d.x,
              (p.rotate ccw).position.y + d.y⟩ })) ∧
      ((∀ d ∈ KICK_DELTAS,
          ¬((p.rotate ccw).fitsAt g ((p.rotate ccw).position.x + d.x)
            ((p.rotate ccw).position.y + d.y) = true)) →
        p.kickRotate g ccw = (false, p))) := by
  have key : ∀ a ∈ List.range 7, ∀ b ∈ List.range 7,
      (⟨(a : ℚ) - 3, (b : ℚ) - 3⟩ : Point) ∈ KICK_DELTAS := by decide
  refine ⟨by decide, by decide, by decide, by decide, by decide, ?_, ?_⟩
  · intro dx dy hdx1 hdx2 hdy1 hdy2
    have ha : ((dx + 3).toNat : ℤ) = dx + 3 := by omega
    have hb : ((dy + 3).toNat : ℤ) = dy + 3 := by omega
    have hxq : (((dx + 3).toNat : ℕ) : ℚ) - 3 = (dx : ℚ) := by
      have h1 : (((dx + 3).toNat : ℕ) : ℚ) = ((dx + 3 : ℤ) : ℚ) := by
        exact_mod_cast congrArg (fun z : ℤ => (z : ℚ)) ha
      rw [h1]; push_cast; ring
    have hyq : (((dy + 3).toNat : ℕ) : ℚ) - 3 = (dy : ℚ) := by
      have h1 : (((dy + 3).toNat : ℕ) : ℚ) = ((dy + 3 : ℤ) : ℚ) := by
        exact_mod_cast congrArg (fun z : ℤ => (z : ℚ)) hb
      rw [h1]; push_cast; ring
    have := key (dx + 3).toNat (List.mem_range.mpr (by omega))
      (dy + 3).toNat (List.mem_range.mpr (by omega))
    rwa [hxq, hyq] at this
  · intro g ccw p
    constructor
    · intro d hfind
      unfold Piece.kickRotate
      dsimp only
      rw [kickLoop_eq_find?, hfind]
    · intro hnone
      unfold Piece.kickRotate
      dsimp only
      rw [kickLoop_eq_find?, List.find?_eq_none.mpr (fun d hd => by
        simpa using hnone d hd)]
      rw [Piece.rotate_undo]

unseal Rat.add Rat.mul Rat.sub Rat.inv Rat.ofScientific in
/-- C3, witness: an in-place kick (offset (0,0)) of the O piece on the
empty grid, and a failed kick on the full grid restoring the piece. -/
theorem C3_kickRotate_witness :
    highPiece.kickRotate emptyGrid false =
      (true, { highPiece.rotate false with
        position := ⟨(highPiece.rotate false).position.x + (0 : ℚ),
          (highPiece.rotate false).position.y + (0 : ℚ)⟩ }) ∧
    bugPiece.kickRotate fullGrid false = (false, bugPiece) :=
  ⟨(C3_kickRotate.2.2.2.2.2.2 emptyGrid false highPiece).1 ⟨0, 0⟩ (by decide),
   (C3_kickRotate.2.2.2.2.2.2 fullGrid false bugPiece).2 (by decide)⟩

/-- Helper: setting an entry to its own value changes nothing. -/
theorem set_getD_eq_self (l : List Piece) (i : Nat) (d : Piece)
    (h : i < l.length) : l.set i (l.getD i d) = l := by
  apply List.ext_getElem?
  intro n
  rw [List.getElem?_set]
  split_ifs with h1
  · subst h1
    rw [List.getD_eq_getElem l d h, List.getElem?_eq_getElem h]
  · rfl

/-- Helper: replacing entry `m` by `x` and putting the old entry in front
is a permutation of putting `x` in front. -/
theorem getD_cons_set_perm (d x : Piece) :
    ∀ (xs : List Piece) (m : Nat), m < xs.length →
      ((xs.getD m d) :: xs.set m x).Perm (x :: xs) := by
  intro xs
  induction xs with
  | nil => intro m h; cases h
  | cons y ys ih =>
    intro m h
    cases m with
    | zero => exact List.Perm.swap x y ys
    | succ m =>
      have h2 : m < ys.length := by simpa using h
      show ((ys.getD m d) :: (y :: ys.set m x)).Perm (x :: y :: ys)
      exact ((List.Perm.swap y (ys.getD m d) (ys.set m x)).trans
        ((ih m h2).cons y)).trans (List.Perm.swap x y ys)

/-- Helper: a Fisher-Yates swap with in-range indices is a permutation. -/
theorem swapAt_perm : ∀ (l : List Piece) (i j : Nat),
    i < l.length → j < l.length → (swapAt l i j).Perm l := by
  intro l
  induction l with
  | nil => intro i j hi _; cases hi
  | cons y ys ih =>
    intro i j hi hj
    cases i with
    | zero =>
      cases j with
      | zero =>
        unfold swapAt
        simp only [List.getD_cons_zero, List.set_cons_zero]
        exact List.Perm.refl _
      | succ m =>
        have h2 : m < ys.length := by simpa using hj
        unfold swapAt
        simp only [List.getD_cons_zero, List.getD_cons_succ,
          List.set_cons_zero, List.set_cons_succ]
        exact getD_cons_set_perm dummyPiece y ys m h2
    | succ n =>
      cases j with
      | zero =>
        have h2 : n < ys.length := by simpa using hi
        unfold swapAt
        simp only [List.getD_cons_zero, List.getD_cons_succ,
          List.set_cons_zero, List.set_cons_succ]
        exact getD_cons_set_perm dummyPiece y ys n h2
      | succ m =>
        have hi2 : n < ys.length := by simpa using hi
        have hj2 : m < ys.length := by simpa using hj
        unfold swapAt
        simp only [List.getD_cons_succ, List.set_cons_succ]
        exact (ih n m hi2 hj2).cons y

/-- Helper: the shuffle loop with in-range random draws permutes the bag. -/
theorem shuffleAux_perm (js : Nat → Nat) (hjs : ∀ k, js k ≤ k) :
    ∀ (i : Nat) (bag : List Piece), i < bag.length →
      (shuffleAux js i bag).Perm bag := by
  intro i
  induction i with
  | zero => intro bag _; exact List.Perm.refl bag
  | succ n ih =>
    intro bag h
    have hsw : (swapAt bag (n + 1) (js (n + 1))).Perm bag :=
      swapAt_perm bag (n + 1) (js (n + 1)) h
        (Nat.lt_of_le_of_lt (hjs (n + 1)) h)
    have hlen : (swapAt bag (n + 1) (js (n + 1))).length = bag.length := by
      unfold swapAt
      simp
    exact (ih _ (by rw [hlen]; omega)).trans hsw

/-- Helper: a full shuffle with in-range random draws permutes the bag. -/
theorem shuffle_perm (js : Nat → Nat) (hjs : ∀ k, js k ≤ k)
    (bag : List Piece) : (Bag.shuffle js bag).Perm bag := by
  unfold Bag.shuffle
  rcases Nat.eq_zero_or_pos bag.length with h0 | hpos
  · rw [h0]
    exact List.Perm.refl bag
  · exact shuffleAux_perm js hjs (bag.length - 1) bag (by omega)

/-- Helper: a mid-bag draw returns the cursor entry and only advances. -/
theorem Bag.next_mid (js : Nat → Nat) (bag : List Piece) (k : Nat)
    (h : k + 1 < bag.length) :
    Bag.next js ⟨bag, k⟩ = (bag.getD k dummyPiece, ⟨bag, k + 1⟩) := by
  unfold Bag.next
  dsimp only
  rw [if_neg (by omega)]

/-- Helper: the draw that exhausts the bag reshuffles and resets. -/
theorem Bag.next_last (js : Nat → Nat) (bag : List Piece) (k : Nat)
    (h : bag.length ≤ k + 1) :
    Bag.next js ⟨bag, k⟩ =
      (bag.getD k dummyPiece, ⟨Bag.shuffle js bag, 0⟩) := by
  unfold Bag.next
  dsimp only
  rw [if_pos h]

/-- Helper: first component of a draw sequence step. -/
theorem nextN_cons_fst (js : Nat → Nat) (rest : List (Nat → Nat))
    (s : BagState) :
    (Bag.nextN (js :: rest) s).1 =
      (Bag.next js s).1 :: (Bag.nextN rest (Bag.next js s).2).1 := rfl

/-- Helper: second component of a draw sequence step. -/
theorem nextN_cons_snd (js : Nat → Nat) (rest : List (Nat → Nat))
    (s : BagState) :
    (Bag.nextN (js :: rest) s).2 =
      (Bag.nextN rest (Bag.next js s).2).2 := rfl

/-- Helper: a run of draws that exactly exhausts a 7-bag returns the
remaining bag entries in order and ends reshuffled at cursor 0 (the
reshuffle uses the last call's draws). -/
theorem nextN_run : ∀ (jss : List (Nat → Nat)) (k : Nat) (bag : List Piece),
    bag.length = 7 → k + jss.length = 7 → jss ≠ [] →
    (Bag.nextN jss ⟨bag, k⟩).1 = bag.drop k ∧
    ∃ jl ∈ jss, (Bag.nextN jss ⟨bag, k⟩).2 = ⟨Bag.shuffle jl bag, 0⟩ := by
  intro jss
  induction jss with
  | nil => intro k bag _ _ hne; exact absurd rfl hne
  | cons f rest ih =>
    intro k bag hlen hsum _
    cases rest with
    | nil =>
      have hk : k = 6 := by simp at hsum; omega
      subst hk
      have hnext := Bag.next_last f bag 6 (by omega)
      rw [nextN_cons_fst, nextN_cons_snd, hnext]
      refine ⟨?_, f, List.mem_cons_self .., rfl⟩
      have h6 : 6 < bag.length := by omega
      rw [List.drop_eq_getElem_cons h6, List.getD_eq_getElem bag dummyPiece h6]
      have h7 : bag.drop 7 = [] := List.drop_eq_nil_of_le (by omega)
      rw [h7]
      rfl
    | cons f2 rest2 =>
      have hk1 : k + 1 < bag.length := by
        simp at hsum
        omega
      have hnext := Bag.next_mid f bag k hk1
      obtain ⟨houts, jl, hjl, hstate⟩ :=
        ih (k + 1) bag hlen (by simp at hsum ⊢; omega) (by simp)
      rw [nextN_cons_fst, nextN_cons_snd, hnext]
      dsimp only
      rw [houts, hstate]
      refine ⟨?_, jl, List.mem_cons_of_mem f hjl, rfl⟩
      rw [List.drop_eq_getElem_cons (by omega : k < bag.length),
        List.getD_eq_getElem bag dummyPiece (by omega : k < bag.length)]

/-- Helper: a run of draws that stays strictly inside the bag only moves
the cursor forward. -/
theorem nextN_mid_run : ∀ (jss : List (Nat → Nat)) (k : Nat)
    (bag : List Piece), bag.length = 7 → k + jss.length < 7 →
    (Bag.nextN jss ⟨bag, k⟩).2 = ⟨bag, k + jss.length⟩ := by
  intro jss
  induction jss with
  | nil => intro k bag _ _; rfl
  | cons f rest ih =>
    intro k bag hlen h
    have hk1 : k + 1 < bag.length := by simp at h; omega
    have hnext := Bag.next_mid f bag k hk1
    rw [nextN_cons_snd, hnext]
    dsimp only
    rw [ih (k + 1) bag hlen (by simp at h ⊢; omega)]
    have : k + 1 + rest.length = k + (f :: rest).length := by simp; omega
    rw [this]

unseal Rat.add Rat.mul Rat.sub Rat.inv Rat.ofScientific in
/-- C8: for any in-range shuffle randomness, a fresh bag is a permutation
of the catalog at cursor 0, and from any bag-boundary state each aligned
run of 7 draws returns every one of the 7 kind identities exactly once
(a permutation of [1..7]), re-establishes the boundary invariant
(permuted bag, cursor 0), and keeps the cursor inside `[0, bagSize)`
after every intermediate call. -/
theorem C8_bag :
    (∀ js : Nat → Nat, (∀ k, js k ≤ k) →
      (Bag.new js).bag.Perm PIECES ∧ (Bag.new js).cursor = 0) ∧
    (∀ (s : BagState) (jss : List (Nat → Nat)),
      s.bag.Perm PIECES → s.cursor = 0 → jss.length = 7 →
      (∀ f ∈ jss, ∀ k, f k ≤ k) →
      ((Bag.nextN jss s).1.map Piece.index).Perm [1, 2, 3, 4, 5, 6, 7] ∧
      (Bag.nextN jss s).2.bag.Perm PIECES ∧
      (Bag.nextN jss s).2.cursor = 0 ∧
      (∀ m, m ≤ 7 → (Bag.nextN (jss.take m) s).2.cursor < 7)) := by
  have hcat : PIECES.map Piece.index = [1, 2, 3, 4, 5, 6, 7] := by decide
  have hcatlen : PIECES.length = 7 := by decide
  constructor
  · intro js hjs
    exact ⟨shuffle_perm js hjs PIECES, rfl⟩
  · intro s jss hperm hcur hjlen hvalid
    obtain ⟨bag, c⟩ := s
    dsimp only at hperm hcur ⊢
    subst hcur
    have hlen : bag.length = 7 := hperm.length_eq.trans hcatlen
    have hne : jss ≠ [] := by
      intro h
      rw [h] at hjlen
      cases hjlen
    obtain ⟨houts, jl, hjl, hstate⟩ :=
      nextN_run jss 0 bag hlen (by omega) hne
    refine ⟨?_, ?_, ?_, ?_⟩
    · rw [houts, List.drop_zero, ← hcat]
      exact hperm.map Piece.index
    · rw [hstate]
      exact (shuffle_perm jl (hvalid jl hjl) bag).trans hperm
    · rw [hstate]
    · intro m hm
      rcases Nat.lt_or_ge m 7 with h7 | h7
      · have htk : (jss.take m).length = m := by
          rw [List.length_take, hjlen]
          omega
        rw [nextN_mid_run (jss.take m) 0 bag hlen (by rw [htk]; omega)]
        dsimp only
        omega
      · have hm7 : m = 7 := by omega
        subst hm7
        rw [← hjlen, List.take_length, hstate]
        dsimp only
        omega

unseal Rat.add Rat.mul Rat.sub Rat.inv Rat.ofScientific in
/-- C8, witness: a fresh bag with identity draws, and the first aligned
run of 7 draws on the catalog-ordered bag. -/
theorem C8_bag_witness :
    ((Bag.new fun k => k).bag.Perm PIECES ∧
      (Bag.new fun k => k).cursor = 0) ∧
    ((Bag.nextN (List.replicate 7 fun k => k)
        ⟨PIECES, 0⟩).1.map Piece.index).Perm [1, 2, 3, 4, 5, 6, 7] ∧
    (Bag.nextN (List.replicate 7 fun k => k) ⟨PIECES, 0⟩).2.bag.Perm PIECES ∧
    (Bag.nextN (List.replicate 7 fun k => k) ⟨PIECES, 0⟩).2.cursor = 0 ∧
    (∀ m, m ≤ 7 →
      (Bag.nextN ((List.replicate 7 fun k => k).take m)
        ⟨PIECES, 0⟩).2.cursor < 7) :=
  ⟨C8_bag.1 (fun k => k) (fun k => Nat.le_refl k),
   C8_bag.2 ⟨PIECES, 0⟩ (List.replicate 7 fun k => k) (List.Perm.refl _) rfl
     (by simp) (fun f hf k => by
       rw [List.eq_of_mem_replicate hf])⟩
